import Mathlib

/-!
Shallow embedding of `src/local.py` (dlmbl/unet notebook-support utilities)
and proofs of the specification's claims about it.

The embedding covers:
* `pad_to_size` (src/local.py:95-105), including the Python tuple
  comparison used by its guard and the per-dimension floor/ceil padding;
* `compute_receptive_field` (src/local.py:160-180), with the decoder's
  true division modelled exactly over `ℚ`;
* `unnormalize` (src/local.py:19-20) and the per-element action of
  `torchvision.transforms.Normalize([0.5], [0.5])` used at load time;
* the `NucleiDataset` class (src/local.py:23-79): construction from a
  root directory of sample subdirectories, `len`, and `getitem` with the
  seed-paired random transform.  External torchvision/PIL operations
  (`Grayscale`, `ToTensor`) are kept as opaque function parameters; the
  repository's own code is translated faithfully.
-/

/-- Python comparison `a < b` on tuples of non-negative integers
(lexicographic; a strict prefix is smaller), as used by `torch.Size`
which is a `tuple` subclass. -/
def pyTupleLt : List ℕ → List ℕ → Bool
  | [], [] => false
  | [], _ :: _ => true
  | _ :: _, [] => false
  | a :: as, b :: bs => if a < b then true else if b < a then false else pyTupleLt as bs

/-- Python comparison `a > b` on tuples: `a > b` iff `b < a`. -/
def pyTupleGt (a b : List ℕ) : Bool :=
  pyTupleLt b a

/-- A torch tensor, modelled by its shape together with (flattened)
rational contents; `pad_to_size` only inspects the shape and passes the
tensor through. -/
structure Tensor where
  shape : List ℕ
  data : List ℚ
deriving DecidableEq

/-- `math.floor((x) / 2)` for an integer difference `x`: exact floor of
the rational `x / 2`. -/
def floorHalf (x : ℤ) : ℤ :=
  x.fdiv 2

/-- `math.ceil((x) / 2)` for an integer difference `x`: exact ceiling of
the rational `x / 2`. -/
def ceilHalf (x : ℤ) : ℤ :=
  -((-x).fdiv 2)

/-- The `pad_twoside` list built by the loop in `pad_to_size`
(src/local.py:101-104): for each dimension, append the floor and then the
ceiling of half the size difference. -/
def padTwoside (shape target : List ℕ) : List ℤ :=
  (shape.zip target).foldl
    (fun acc p => acc ++ [floorHalf ((p.2 : ℤ) - (p.1 : ℤ)), ceilHalf ((p.2 : ℤ) - (p.1 : ℤ))])
    []

/-- The error message raised at src/local.py:97 (the sizes are rendered
with Lean's list notation rather than `torch.Size`'s repr). -/
def padErrMsg (shape target : List ℕ) : String :=
  "Can\x27t pad tensor of size " ++ toString shape ++ " to tensor of size "
    ++ toString target ++ "."

/-- Result of a successful `pad_to_size` call: either the input tensor
returned unchanged (equal sizes), or a call
`torch.nn.functional.pad(small_tensor, pad_twoside[::-1])`, recorded as
the tensor together with the (already reversed) padding argument. -/
inductive PadResult where
  | unchanged (t : Tensor)
  | padded (t : Tensor) (pad : List ℤ)
deriving DecidableEq

/-- `pad_to_size` (src/local.py:95-105): raise `ValueError` when the
source size tuple compares greater than the target (Python tuple
comparison), return the input unchanged on equal sizes, otherwise call
`F.pad` with the reversed two-sided padding list. -/
def pad_to_size (small_tensor : Tensor) (target_size : List ℕ) : Except String PadResult :=
  if pyTupleGt small_tensor.shape target_size = true then
    Except.error (padErrMsg small_tensor.shape target_size)
  else if small_tensor.shape = target_size then
    Except.ok (PadResult.unchanged small_tensor)
  else
    Except.ok (PadResult.padded small_tensor (padTwoside small_tensor.shape target_size).reverse)

deriving instance DecidableEq for Except

/-- Whether a `pad_to_size` call succeeded (did not raise). -/
def isOk : Except String PadResult → Bool
  | Except.ok _ => true
  | Except.error _ => false

lemma pyTupleLt_self : ∀ s : List ℕ, pyTupleLt s s = false := by
  intro s
  induction s with
  | nil => rfl
  | cons a as ih => simp [pyTupleLt, ih]

lemma pyTupleGt_self (s : List ℕ) : pyTupleGt s s = false :=
  pyTupleLt_self s

/-- If every dimension of `s` is at most the corresponding dimension of
`t` (same rank), then the Python comparison `s > t` is false, so the
guard of `pad_to_size` does not fire. -/
lemma pyTupleGt_eq_false_of_le :
    ∀ s t : List ℕ, s.length = t.length → (∀ p ∈ s.zip t, p.1 ≤ p.2) →
      pyTupleGt s t = false := by
  intro s
  induction s with
  | nil =>
    intro t hlen _
    cases t with
    | nil => rfl
    | cons b bs => simp at hlen
  | cons a as ih =>
    intro t hlen hle
    cases t with
    | nil => simp at hlen
    | cons b bs =>
      have hab : a ≤ b := hle (a, b) (by simp [List.zip_cons_cons])
      have htail : ∀ p ∈ as.zip bs, p.1 ≤ p.2 := by
        intro p hp
        exact hle p (by simp [List.zip_cons_cons, hp])
      have hlen' : as.length = bs.length := by simpa using hlen
      show pyTupleLt (b :: bs) (a :: as) = false
      have hba : ¬ b < a := Nat.not_lt.mpr hab
      by_cases hab' : a < b
      · simp [pyTupleLt, hba, hab']
      · have : a = b := Nat.le_antisymm hab (Nat.not_lt.mp hab')
        simp [pyTupleLt, hba, hab']
        exact ih bs hlen' htail

lemma foldl_append_pairs (f : ℕ × ℕ → List ℤ) :
    ∀ (l : List (ℕ × ℕ)) (acc : List ℤ),
      l.foldl (fun acc p => acc ++ f p) acc = acc ++ (l.map f).flatten := by
  intro l
  induction l with
  | nil => intro acc; simp
  | cons x xs ih => intro acc; simp [ih, List.append_assoc]

/-- The loop-built `pad_twoside` list equals the per-dimension floor/ceil
pairs, concatenated in dimension order. -/
lemma padTwoside_eq_join (shape target : List ℕ) :
    padTwoside shape target =
      ((shape.zip target).map
        (fun p => [floorHalf ((p.2 : ℤ) - (p.1 : ℤ)), ceilHalf ((p.2 : ℤ) - (p.1 : ℤ))])).flatten := by
  unfold padTwoside
  rw [foldl_append_pairs]
  simp

/-- C9: padding a tensor to its own exact size returns the input tensor
unchanged (src/local.py:99-100). -/
theorem pad_to_size_self (t : Tensor) :
    pad_to_size t t.shape = Except.ok (PadResult.unchanged t) := by
  unfold pad_to_size
  rw [pyTupleGt_self]
  simp

/-- C5: `pad_to_size` raises exactly when the source shape tuple is
lexicographically greater than the target (Python tuple ordering), not
when some individual dimension exceeds it: the tensor of shape `[1, 8]`
against target `[2, 3]` (first differing dimension smaller, later
dimension larger) raises no error, and the computed two-sided padding for
the later dimension is negative (`-3` and `-2`). -/
theorem pad_to_size_error_lexicographic (t : Tensor) (target : List ℕ) :
    (pad_to_size t target = Except.error (padErrMsg t.shape target) ↔
      pyTupleGt t.shape target = true) ∧
    pyTupleGt [1, 8] [2, 3] = false ∧
    padTwoside [1, 8] [2, 3] = [0, 1, -3, -2] ∧
    pad_to_size ⟨[1, 8], []⟩ [2, 3] =
      Except.ok (PadResult.padded ⟨[1, 8], []⟩ [-2, -3, 1, 0]) := by
  refine ⟨?_, by decide, by decide, by decide⟩
  unfold pad_to_size
  cases h : pyTupleGt t.shape target with
  | true => simp
  | false =>
    simp only [h, Bool.false_eq_true, if_false, iff_false]
    split <;> simp

/-- C1 (amended): `pad_to_size` raises the descriptive `ValueError`
whenever the source shape tuple compares greater than the target under
Python tuple (lexicographic) ordering, and this is the only condition
under which it raises. -/
theorem pad_to_size_error_condition (t : Tensor) (target : List ℕ) :
    (pyTupleGt t.shape target = true →
      pad_to_size t target = Except.error (padErrMsg t.shape target)) ∧
    (pyTupleGt t.shape target = false →
      isOk (pad_to_size t target) = true) := by
  constructor
  · intro h
    unfold pad_to_size
    simp [h]
  · intro h
    unfold pad_to_size
    by_cases he : t.shape = target <;> simp [h, he, isOk, pyTupleGt_self]

theorem pad_to_size_error_condition_witness :
    pad_to_size ⟨[5, 5], []⟩ [4, 9] = Except.error (padErrMsg [5, 5] [4, 9]) ∧
    isOk (pad_to_size ⟨[1, 2], []⟩ [1, 3]) = true :=
  ⟨(pad_to_size_error_condition ⟨[5, 5], []⟩ [4, 9]).1 (by decide),
   (pad_to_size_error_condition ⟨[1, 2], []⟩ [1, 3]).2 (by decide)⟩

/-- C1 counterexample to the claim as stated: for the tensor of shape
`[2, 9]` and target `[3, 4]`, the target is smaller than the source in
dimension 1 (4 < 9), yet `pad_to_size` raises no error — it returns a
padded result (with negative padding entries) because the shape tuple is
lexicographically below the target. -/
theorem pad_to_size_dimension_no_error :
    (4 : ℕ) < 9 ∧
    pad_to_size ⟨[2, 9], []⟩ [3, 4] =
      Except.ok (PadResult.padded ⟨[2, 9], []⟩ [-2, -3, 1, 0]) :=
  ⟨by decide, by decide⟩

/-- C4: when every dimension of the tensor is no larger than the target
(same rank), `pad_to_size` never errors; at equal sizes it returns the
input unchanged, and otherwise it pads each dimension by the floor of
half the difference on one side and the ceiling on the other (the flat
list is reversed into `F.pad`'s last-dimension-first convention).  In
particular padding shape `(1, 4, 4)` to `(1, 6, 6)` passes
`[1, 1, 1, 1, 0, 0]` to `F.pad`: each spatial dimension is padded by
`(1, 1)`. -/
theorem pad_to_size_floor_ceil (t : Tensor) (target : List ℕ)
    (hlen : t.shape.length = target.length)
    (hle : ∀ p ∈ t.shape.zip target, p.1 ≤ p.2) :
    (t.shape = target → pad_to_size t target = Except.ok (PadResult.unchanged t)) ∧
    (t.shape ≠ target → pad_to_size t target = Except.ok (PadResult.padded t
      (((t.shape.zip target).map
        (fun p => [floorHalf ((p.2 : ℤ) - (p.1 : ℤ)),
          ceilHalf ((p.2 : ℤ) - (p.1 : ℤ))])).flatten.reverse))) ∧
    pad_to_size ⟨[1, 4, 4], []⟩ [1, 6, 6] =
      Except.ok (PadResult.padded ⟨[1, 4, 4], []⟩ [1, 1, 1, 1, 0, 0]) := by
  have hgt : pyTupleGt t.shape target = false := pyTupleGt_eq_false_of_le _ _ hlen hle
  refine ⟨?_, ?_, by decide⟩
  · intro he
    unfold pad_to_size
    simp [hgt, he, pyTupleGt_self]
  · intro hne
    unfold pad_to_size
    rw [padTwoside_eq_join]
    simp [hgt, hne]

theorem pad_to_size_floor_ceil_witness :
    pad_to_size ⟨[1, 4, 4], []⟩ [1, 6, 6] =
      Except.ok (PadResult.padded ⟨[1, 4, 4], []⟩ [1, 1, 1, 1, 0, 0]) :=
  (pad_to_size_floor_ceil ⟨[1, 4, 4], []⟩ [1, 6, 6] (by decide) (by decide)).2.2

/-- One iteration of the encoder loop of `compute_receptive_field`
(src/local.py:164-169): two convolutions widen the field of view by
`2 * (kernel_size - 1)` times the current downsampling level, then the
downsampling stage multiplies both the field of view and the accumulated
downsampling product by the downsample factor.  The state is the pair
`(fov, downsample_factor_prod)`, iterated `range(depth - 1)` times. -/
def encLoop (k d : ℚ) : ℕ → ℚ × ℚ → ℚ × ℚ
  | 0, s => s
  | n + 1, s => encLoop k d n ((s.1 + 2 * (k - 1) * s.2) * d, s.2 * d)

/-- One iteration of the decoder loop of `compute_receptive_field`
(src/local.py:174-178): the upsampling stage divides the accumulated
downsampling product by the downsample factor (Python true division,
modelled exactly over `ℚ`), then two convolutions widen the field of view
by `2 * (kernel_size - 1)` times the new level.  The loop body ignores
its index, so reversing `range(depth - 1)` only fixes the trip count. -/
def decLoop (k d : ℚ) : ℕ → ℚ × ℚ → ℚ × ℚ
  | 0, s => s
  | n + 1, s => decLoop k d n (s.1 + 2 * (k - 1) * (s.2 / d), s.2 / d)

/-- `compute_receptive_field` (src/local.py:160-180): encoder loop over
`range(depth - 1)` starting from `fov = 1`, `downsample_factor_prod = 1`,
then the bottom layer's two convolutions, then the decoder loop over
`range(depth - 1)` reversed. -/
def compute_receptive_field (depth kernel_size downsample_factor : ℤ) : ℚ :=
  (decLoop (kernel_size : ℚ) (downsample_factor : ℚ) (depth - 1).toNat
    ((encLoop (kernel_size : ℚ) (downsample_factor : ℚ) (depth - 1).toNat (1, 1)).1
        + 2 * ((kernel_size : ℚ) - 1)
          * (encLoop (kernel_size : ℚ) (downsample_factor : ℚ) (depth - 1).toNat (1, 1)).2,
      (encLoop (kernel_size : ℚ) (downsample_factor : ℚ) (depth - 1).toNat (1, 1)).2)).1

lemma encLoop_closed (k d : ℚ) :
    ∀ (n : ℕ) (f p : ℚ),
      encLoop k d n (f, p) =
        (d ^ n * f + 2 * (k - 1) * n * d ^ n * p, d ^ n * p) := by
  intro n
  induction n with
  | zero => intro f p; simp [encLoop]
  | succ m ih =>
    intro f p
    show encLoop k d m ((f + 2 * (k - 1) * p) * d, p * d) = _
    rw [ih]
    simp only [Prod.mk.injEq]
    constructor <;> push_cast <;> ring

lemma decLoop_closed (k d : ℚ) (hd : d ≠ 0) :
    ∀ (n : ℕ) (f q : ℚ),
      decLoop k d n (f, d ^ n * q) =
        (f + 2 * (k - 1) * q * (Finset.range n).sum (fun i => d ^ i), q) := by
  intro n
  induction n with
  | zero => intro f q; simp [decLoop]
  | succ m ih =>
    intro f q
    have h1 : d ^ (m + 1) * q / d = d ^ m * q := by
      rw [pow_succ]
      field_simp
      ring
    show decLoop k d m (f + 2 * (k - 1) * (d ^ (m + 1) * q / d), d ^ (m + 1) * q / d) = _
    rw [h1, ih]
    simp only [Prod.mk.injEq]
    rw [Finset.sum_range_succ]
    exact ⟨by ring, trivial⟩

/-- Closed form of the receptive field: with `n = depth - 1` encoder /
decoder stages, the field of view is
`d ^ n + 2 (k - 1) ((n + 1) d ^ n + (d ^ (n-1) + ... + d ^ 0))`. -/
def rfClosed (n : ℕ) (k d : ℚ) : ℚ :=
  d ^ n + 2 * (k - 1) * (((n : ℚ) + 1) * d ^ n + (Finset.range n).sum (fun i => d ^ i))

lemma compute_receptive_field_eq_closed (depth kernel_size downsample_factor : ℤ)
    (hd : (downsample_factor : ℚ) ≠ 0) :
    compute_receptive_field depth kernel_size downsample_factor =
      rfClosed (depth - 1).toNat (kernel_size : ℚ) (downsample_factor : ℚ) := by
  unfold compute_receptive_field rfClosed
  rw [encLoop_closed]
  rw [decLoop_closed _ _ hd]
  ring

lemma rfClosed_pos (n : ℕ) (k d : ℚ) (hk : 1 ≤ k) (hd : 1 ≤ d) :
    0 < rfClosed n k d := by
  unfold rfClosed
  have hd0 : (0 : ℚ) < d := lt_of_lt_of_le one_pos hd
  have hdn : (0 : ℚ) < d ^ n := pow_pos hd0 n
  have hsum : (0 : ℚ) ≤ (Finset.range n).sum (fun i => d ^ i) :=
    Finset.sum_nonneg (fun i _ => le_of_lt (pow_pos hd0 i))
  have hk1 : (0 : ℚ) ≤ 2 * (k - 1) := by linarith
  have hterm : (0 : ℚ) ≤ ((n : ℚ) + 1) * d ^ n := by positivity
  have := mul_nonneg hk1 (add_nonneg hterm hsum)
  linarith

lemma rfClosed_mono_k (n : ℕ) (k k' d : ℚ) (hkk : k ≤ k') (hd : 1 ≤ d) :
    rfClosed n k d ≤ rfClosed n k' d := by
  unfold rfClosed
  have hd0 : (0 : ℚ) < d := lt_of_lt_of_le one_pos hd
  have hsum : (0 : ℚ) ≤ (Finset.range n).sum (fun i => d ^ i) :=
    Finset.sum_nonneg (fun i _ => le_of_lt (pow_pos hd0 i))
  have hterm : (0 : ℚ) ≤ ((n : ℚ) + 1) * d ^ n := by positivity
  have h1 : 2 * (k - 1) ≤ 2 * (k' - 1) := by linarith
  have := mul_le_mul_of_nonneg_right h1 (add_nonneg hterm hsum)
  linarith

lemma rfClosed_mono_n (k d : ℚ) (hk : 1 ≤ k) (hd : 1 ≤ d) :
    Monotone (fun n => rfClosed n k d) := by
  apply monotone_nat_of_le_succ
  intro n
  show rfClosed n k d ≤ rfClosed (n + 1) k d
  unfold rfClosed
  rw [Finset.sum_range_succ]
  have hd0 : (0 : ℚ) < d := lt_of_lt_of_le one_pos hd
  have hdn : (0 : ℚ) ≤ d ^ n := le_of_lt (pow_pos hd0 n)
  have h1 : d ^ n ≤ d ^ (n + 1) := pow_le_pow_right₀ hd (Nat.le_succ n)
  have h2 : ((n : ℚ) + 1) * d ^ n ≤ ((n : ℚ) + 1 + 1) * d ^ (n + 1) := by
    apply mul_le_mul (by linarith) h1 hdn (by positivity)
  have hk1 : (0 : ℚ) ≤ 2 * (k - 1) := by linarith
  have hC : ((n : ℚ) + 1) * d ^ n + (Finset.range n).sum (fun i => d ^ i) ≤
      (((n : ℚ) + 1) + 1) * d ^ (n + 1) +
        ((Finset.range n).sum (fun i => d ^ i) + d ^ n) := by
    linarith
  have := mul_le_mul_of_nonneg_left hC hk1
  simp only [Nat.cast_add, Nat.cast_one] at this ⊢
  linarith

/-- C2: for `depth ≥ 1`, `kernel_size ≥ 1`, `downsample_factor ≥ 1`, the
receptive field is positive, and it is monotonically non-decreasing both
in the depth and in the kernel size (the other arguments held fixed). -/
theorem compute_receptive_field_pos_mono
    (depth depth' kernel_size kernel_size' downsample_factor : ℤ)
    (_hdep : 1 ≤ depth) (hk : 1 ≤ kernel_size) (hd : 1 ≤ downsample_factor)
    (hdd : depth ≤ depth') (hkk : kernel_size ≤ kernel_size') :
    0 < compute_receptive_field depth kernel_size downsample_factor ∧
    compute_receptive_field depth kernel_size downsample_factor ≤
      compute_receptive_field depth' kernel_size downsample_factor ∧
    compute_receptive_field depth kernel_size downsample_factor ≤
      compute_receptive_field depth kernel_size' downsample_factor := by
  have hkQ : (1 : ℚ) ≤ (kernel_size : ℚ) := by exact_mod_cast hk
  have hdQ : (1 : ℚ) ≤ (downsample_factor : ℚ) := by exact_mod_cast hd
  have hkQ' : (kernel_size : ℚ) ≤ (kernel_size' : ℚ) := by exact_mod_cast hkk
  have hdne : (downsample_factor : ℚ) ≠ 0 :=
    ne_of_gt (lt_of_lt_of_le one_pos hdQ)
  rw [compute_receptive_field_eq_closed depth kernel_size downsample_factor hdne,
    compute_receptive_field_eq_closed depth' kernel_size downsample_factor hdne,
    compute_receptive_field_eq_closed depth kernel_size' downsample_factor hdne]
  refine ⟨rfClosed_pos _ _ _ hkQ hdQ, ?_, rfClosed_mono_k _ _ _ _ hkQ' hdQ⟩
  exact rfClosed_mono_n _ _ hkQ hdQ
    (Int.toNat_le_toNat (by linarith))

theorem compute_receptive_field_pos_mono_witness :
    0 < compute_receptive_field 2 3 2 ∧
    compute_receptive_field 2 3 2 ≤ compute_receptive_field 4 3 2 ∧
    compute_receptive_field 2 3 2 ≤ compute_receptive_field 2 7 2 :=
  compute_receptive_field_pos_mono 2 4 3 7 2 (by decide) (by decide) (by decide)
    (by decide) (by decide)

/-- C3: `compute_receptive_field(1, 3, 2) = 5 = 1 + 2 * (3 - 1)`, and at
depth 1 both the encoder and the decoder loop run `(1 - 1).toNat = 0`
iterations, leaving their states untouched. -/
theorem compute_receptive_field_depth_one :
    compute_receptive_field 1 3 2 = 5 ∧
    (5 : ℚ) = 1 + 2 * (3 - 1) ∧
    encLoop 3 2 ((1 : ℤ) - 1).toNat (1, 1) = (1, 1) ∧
    decLoop 3 2 ((1 : ℤ) - 1).toNat (1 + 2 * (3 - 1), 1) = (1 + 2 * (3 - 1), 1) := by
  refine ⟨?_, by norm_num, rfl, rfl⟩
  show (decLoop ((3 : ℤ) : ℚ) ((2 : ℤ) : ℚ) 0 _).1 = 5
  unfold decLoop encLoop
  norm_num

/-- `unnormalize` (src/local.py:19-20), per tensor element:
`(tensor + 1) / 2.0`. -/
def unnormalize (x : ℚ) : ℚ :=
  (x + 1) / 2

/-- Per-element action of `torchvision.transforms.Normalize(mean, std)`
as applied at load time (src/local.py:39): `(x - mean) / std`. -/
def normalizePoint (mean std x : ℚ) : ℚ :=
  (x - mean) / std

/-- C10: `unnormalize` exactly inverts the load-time normalization
`Normalize([0.5], [0.5])`: `unnormalize ((x - 0.5) / 0.5) = x` over exact
rational arithmetic. -/
theorem unnormalize_inverts_normalize (x : ℚ) :
    unnormalize (normalizePoint (1 / 2) (1 / 2) x) = x := by
  unfold unnormalize normalizePoint
  norm_num
  ring

/-- A raw image as loaded by PIL, modelled as a 2D raster of rational
intensities. -/
abbrev PImage := List (List ℚ)

/-- A torch tensor holding image data, same raster model. -/
abbrev Tens := List (List ℚ)

/-- One sample subdirectory of the root directory: its name and the
contents of its `image.tif` and `mask.tif`. -/
structure Sample where
  name : String
  image : PImage
  mask : PImage

/-- The external torchvision/PIL operations `NucleiDataset.__init__`
calls (src/local.py:37-38): kept opaque, since they are library code,
not code of this repository. -/
structure VisionLib where
  grayscale : PImage → PImage
  toTensor : PImage → Tens

/-- `Normalize([0.5], [0.5])` applied to a whole tensor, elementwise
(src/local.py:39). -/
def normalizeT (t : Tens) : Tens :=
  t.map (fun row => row.map (normalizePoint (1 / 2) (1 / 2)))

/-- The `inp_transforms` composition built in `NucleiDataset.__init__`
(src/local.py:35-41): `Grayscale`, then `ToTensor`, then
`Normalize([0.5], [0.5])`. -/
def inp_transforms (lib : VisionLib) (im : PImage) : Tens :=
  normalizeT (lib.toTensor (lib.grayscale im))

/-- The in-memory state of a `NucleiDataset` (src/local.py:23-57).  The
paired `transform` is a randomized transform, modelled as a function of
the RNG seed set by `torch.manual_seed` immediately before it runs. -/
structure NucleiDataset where
  samples : List String
  transform : Option (ℕ → Tens → Tens)
  img_transform : Option (Tens → Tens)
  loaded_imgs : List Tens
  loaded_masks : List Tens

/-- `NucleiDataset.__init__` (src/local.py:26-57): list the sample
subdirectories of the root directory, and for each one eagerly load
`image.tif` through `inp_transforms` into `loaded_imgs` and `mask.tif`
through `ToTensor` into `loaded_masks`, at the same index. -/
def NucleiDataset.init (lib : VisionLib) (root_dir : List Sample)
    (transform : Option (ℕ → Tens → Tens)) (img_transform : Option (Tens → Tens)) :
    NucleiDataset :=
  { samples := root_dir.map Sample.name
    transform := transform
    img_transform := img_transform
    loaded_imgs := root_dir.map (fun s => inp_transforms lib s.image)
    loaded_masks := root_dir.map (fun s => lib.toTensor s.mask) }

/-- `NucleiDataset.__len__` (src/local.py:60-61). -/
def NucleiDataset.len (ds : NucleiDataset) : ℕ :=
  ds.samples.length

/-- `NucleiDataset.__getitem__` (src/local.py:64-79).  `freshSeed` is the
value returned by `torch.seed()`; `torch.manual_seed(seed)` immediately
before each of the two paired-transform applications is modelled by
passing that seed to the transform. -/
def NucleiDataset.getitem (ds : NucleiDataset) (idx freshSeed : ℕ) : Tens × Tens :=
  let image := ds.loaded_imgs.getD idx []
  let mask := ds.loaded_masks.getD idx []
  let paired : Tens × Tens :=
    match ds.transform with
    | none => (image, mask)
    | some t => (t freshSeed image, t freshSeed mask)
  match ds.img_transform with
  | none => paired
  | some g => (g paired.1, paired.2)

/-- C8: a dataset constructed over a root directory of `N` sample
subdirectories reports length `N`. -/
theorem nucleiDataset_len (lib : VisionLib) (root_dir : List Sample)
    (transform : Option (ℕ → Tens → Tens)) (img_transform : Option (Tens → Tens)) :
    (NucleiDataset.init lib root_dir transform img_transform).len = root_dir.length := by
  simp [NucleiDataset.init, NucleiDataset.len]

/-- C6: the image and mask sequences built by construction have equal
length, and at every index `i` the image and the mask are the ones loaded
from the same sample subdirectory `root_dir[i]` (`image.tif` through
`inp_transforms`, `mask.tif` through `ToTensor`).  All subsequent
operations of the embedding (`len`, `getitem`) take the dataset
immutably, so the invariant is preserved after construction. -/
theorem nucleiDataset_index_alignment (lib : VisionLib) (root_dir : List Sample)
    (transform : Option (ℕ → Tens → Tens)) (img_transform : Option (Tens → Tens))
    (i : ℕ) (hi : i < root_dir.length) :
    (NucleiDataset.init lib root_dir transform img_transform).loaded_imgs.length =
      (NucleiDataset.init lib root_dir transform img_transform).loaded_masks.length ∧
    (NucleiDataset.init lib root_dir transform img_transform).loaded_imgs.getD i [] =
      inp_transforms lib (root_dir.getD i ⟨"", [], []⟩).image ∧
    (NucleiDataset.init lib root_dir transform img_transform).loaded_masks.getD i [] =
      lib.toTensor (root_dir.getD i ⟨"", [], []⟩).mask := by
  have himg : i < (root_dir.map (fun s => inp_transforms lib s.image)).length := by
    simpa using hi
  have hmask : i < (root_dir.map (fun s => lib.toTensor s.mask)).length := by
    simpa using hi
  refine ⟨by simp [NucleiDataset.init], ?_, ?_⟩
  · show (root_dir.map (fun s => inp_transforms lib s.image)).getD i [] = _
    rw [List.getD_eq_getElem _ _ himg, List.getD_eq_getElem _ _ hi, List.getElem_map]
  · show (root_dir.map (fun s => lib.toTensor s.mask)).getD i [] = _
    rw [List.getD_eq_getElem _ _ hmask, List.getD_eq_getElem _ _ hi, List.getElem_map]

theorem nucleiDataset_index_alignment_witness :
    (NucleiDataset.init ⟨id, id⟩ [⟨"sample_a", [[1]], [[0]]⟩] none none).loaded_imgs.length =
      (NucleiDataset.init ⟨id, id⟩ [⟨"sample_a", [[1]], [[0]]⟩] none none).loaded_masks.length ∧
    (NucleiDataset.init ⟨id, id⟩ [⟨"sample_a", [[1]], [[0]]⟩] none none).loaded_imgs.getD 0 [] =
      inp_transforms ⟨id, id⟩ (([⟨"sample_a", [[1]], [[0]]⟩] : List Sample).getD 0 ⟨"", [], []⟩).image ∧
    (NucleiDataset.init ⟨id, id⟩ [⟨"sample_a", [[1]], [[0]]⟩] none none).loaded_masks.getD 0 [] =
      VisionLib.toTensor ⟨id, id⟩ (([⟨"sample_a", [[1]], [[0]]⟩] : List Sample).getD 0 ⟨"", [], []⟩).mask :=
  nucleiDataset_index_alignment ⟨id, id⟩ [⟨"sample_a", [[1]], [[0]]⟩] none none 0
    (by decide)

/-- A concrete seed-dependent paired transform used to instantiate the
seed-pairing theorem: shift every pixel by the seed value. -/
def shiftT : ℕ → Tens → Tens :=
  fun seed t => t.map (fun row => row.map (fun x => x + (seed : ℚ)))

/-- C7: with a non-`None` paired transform, `__getitem__` applies the
transform to the image and to the mask under the same RNG seed — the
single value returned by `torch.seed()` and re-installed by
`torch.manual_seed` immediately before each of the two applications — so
the same random transform is applied to both. -/
theorem nucleiDataset_getitem_same_seed (ds : NucleiDataset)
    (t : ℕ → Tens → Tens) (h : ds.transform = some t) (idx freshSeed : ℕ) :
    ds.getitem idx freshSeed =
      ((ds.img_transform.getD id) (t freshSeed (ds.loaded_imgs.getD idx [])),
        t freshSeed (ds.loaded_masks.getD idx [])) := by
  unfold NucleiDataset.getitem
  rw [h]
  cases hg : ds.img_transform with
  | none => simp
  | some g => simp

theorem nucleiDataset_getitem_same_seed_witness :
    (NucleiDataset.init ⟨id, id⟩ [⟨"sample_a", [[1]], [[0]]⟩] (some shiftT) none).getitem 0 7 =
      (((NucleiDataset.init ⟨id, id⟩ [⟨"sample_a", [[1]], [[0]]⟩]
            (some shiftT) none).img_transform.getD id)
          (shiftT 7 ((NucleiDataset.init ⟨id, id⟩ [⟨"sample_a", [[1]], [[0]]⟩]
            (some shiftT) none).loaded_imgs.getD 0 [])),
        shiftT 7 ((NucleiDataset.init ⟨id, id⟩ [⟨"sample_a", [[1]], [[0]]⟩]
          (some shiftT) none).loaded_masks.getD 0 [])) :=
  nucleiDataset_getitem_same_seed
    (NucleiDataset.init ⟨id, id⟩ [⟨"sample_a", [[1]], [[0]]⟩] (some shiftT) none)
    shiftT rfl 0 7
